import Mathlib

/-!
Verification development for the batch image compressor (Express server
`index.js` + worker-thread `worker.js`).  The server keeps an in-memory
registry `compressionProgress` mapping batch ids to progress records, a map
`batchWorkers` of live workers, and two storage areas (`uploads` and
`temp_compressed`).  The worker transforms eligible images, archives all
files of one batch into a single zip, and reports `progress` / `complete` /
`error` messages back to the server.

The embedding below translates those two files into pure Lean functions:
the worker becomes a function from its `workerData` (plus the outcome flags
of the external sharp / stream calls) to the list of messages it posts, the
archive entries it appends and the storage operations it performs; the
server's route handlers and worker-event handlers become state transformers
on a `ServerState` record (registry association list, set of live worker
ids, set of paths existing on storage).
-/

namespace Bic

/-- Lower-case a string character by character (JS `String.prototype.toLowerCase`
on ASCII file extensions). -/
def toLowerStr (s : String) : String :=
  ⟨s.data.map Char.toLower⟩

/-- Node `path.extname` for slash-free names: the substring from the last `.`
to the end, or `""` when there is no dot or the only dot is the leading
character (`".bashrc"` has no extension). -/
def extname (s : String) : String :=
  let cs := s.data
  let afterRev := cs.reverse.takeWhile (fun c => c ≠ '.')
  if '.' ∈ cs then
    if cs.length - 1 - afterRev.length = 0 then "" else ⟨'.' :: afterRev.reverse⟩
  else ""

/-- Node `path.parse(name).name` for slash-free names: the name with its
`extname` removed. -/
def parseName (s : String) : String :=
  if extname s = "" then s else ⟨s.data.take (s.data.length - (extname s).data.length)⟩

/-- Node `path.join` as used in the sources: both directories are flat and the
joined component is a plain file name, so the join is directory, separator,
name. -/
def pathJoin (dir name : String) : String :=
  dir ++ "/" ++ name

/-- `worker.js` `shouldCompress`: the lower-cased extension is `.jpg`,
`.jpeg` or `.png`. -/
def shouldCompress (fileName : String) : Bool :=
  let ext := toLowerStr (extname fileName)
  ext == ".jpg" || ext == ".jpeg" || ext == ".png"

/-- `worker.js`: the output zip name.  JS tests `zipFolderName ?`, so an
absent field and an empty string both fall to the default
`compressed_images_<batchId>.zip`; a non-empty string is used verbatim
(no sanitization appears in the code). -/
def zipNameOf (zipFolderName : Option String) (batchId : String) : String :=
  match zipFolderName with
  | some s => if s ≠ "" then s ++ ".zip" else "compressed_images_" ++ batchId ++ ".zip"
  | none => "compressed_images_" ++ batchId ++ ".zip"

/-- One uploaded file as seen by the worker (`file.originalname`), together
with the outcomes of the external calls on that stored source:
`sharpFails = true` models `sharp(...).toBuffer()` rejecting (unreadable or
corrupt source) on the eligible branch; `readFails = true` models the stored
source being unreadable when the non-eligible branch streams it with
`fsSync.createReadStream` — that failure is deferred (the stream is lazy),
so it is consulted not in the per-file step but at run level (see
`runWorker`). -/
structure UpFile where
  originalname : String
  sharpFails : Bool := false
  readFails : Bool := false
deriving DecidableEq, Repr

/-- What an archive entry holds: the webp buffer produced by sharp, or the
original bytes streamed unmodified. -/
inductive EntryData where
  | transformed
  | originalStream
deriving DecidableEq, Repr

/-- One `archive.append` call: the entry name passed alongside the data. -/
structure ArchiveEntry where
  name : String
  data : EntryData
deriving DecidableEq, Repr

/-- A message the worker posts on `parentPort` (`worker.js` lines 75, 83, 91). -/
inductive Msg where
  | progress (completed : Nat)
  | complete (zipPath zipName : String)
  | error (message : String)
deriving DecidableEq, Repr

/-- The worker's `workerData` plus the outcome flags of the two fallible steps
that sit outside the per-file try: creating the output stream and finalizing
the archive. -/
structure WorkerInput where
  files : List UpFile
  uploadDir : String
  tempCompressedDir : String
  batchId : String
  zipFolderName : Option String
  openFails : Bool := false
  finalizeFails : Bool := false
deriving Repr

/-- The body of the per-file `try` in `worker.js` lines 36-68: an eligible
file whose sharp call succeeds is appended as `<name>.webp`; an eligible file
whose sharp call rejects throws `Sharp Read Failure`, which the surrounding
catch turns into a skip (`none`, nothing appended); a non-eligible file is
appended as its original name with its original bytes.  The non-eligible
append always succeeds synchronously even for an unreadable source, because
`createReadStream` is lazy: its read error surfaces only later, outside the
per-file try (see `runWorker`). -/
def fileEntry (f : UpFile) : Option ArchiveEntry :=
  if shouldCompress f.originalname then
    if f.sharpFails then none
    else some ⟨parseName f.originalname ++ ".webp", EntryData.transformed⟩
  else some ⟨f.originalname, EntryData.originalStream⟩

/-- The `for (const file of files)` loop of `worker.js` lines 32-77,
accumulating (appended entries, posted progress messages, unlinked source
paths).  `c` is `completedCount` before the iteration; after every file —
appended or skipped — the count is incremented, a progress message is posted,
and the source file is unlinked. -/
def runLoop (uploadDir : String) : List UpFile → Nat → List ArchiveEntry × List Msg × List String
  | [], _ => ([], [], [])
  | f :: rest, c =>
    let (es, ms, us) := runLoop uploadDir rest (c + 1)
    ((fileEntry f).toList ++ es, Msg.progress (c + 1) :: ms,
      pathJoin uploadDir f.originalname :: us)

/-- A run contains a deferred stream-read failure when some non-eligible
file's stored source is unreadable: its `createReadStream` was appended
inside the per-file try, but the read error fires asynchronously while the
archiver drains the stream, where no error listener is attached yet (the
`archive.on` error handler is installed only after `finalize`), so the
error escapes every catch and kills the worker. -/
def hasDeferredReadFailure (files : List UpFile) : Bool :=
  files.any (fun f => !shouldCompress f.originalname && f.readFails)

/-- Everything observable that one run of `compressAndZip` does:
the posted messages in order, the appended archive entries in order, the
unlinked source paths (each source path is also the path the worker reads),
the zip path created on storage by `createWriteStream` (present as soon
as the stream was opened, whether or not the archive was finalized), and
whether the worker died from an uncaught exception (a deferred stream-read
error), in which case the parent observes the Worker error event and a
nonzero exit instead of a terminal message. -/
structure WorkerResult where
  msgs : List Msg
  entries : List ArchiveEntry
  unlinked : List String
  zipCreated : Option String
  crashed : Bool
deriving DecidableEq, Repr

/-- `worker.js` `compressAndZip`: name the zip, open the output stream (a
failure here is caught by the outer catch, posting only an error message),
run the per-file loop, finalize; a finalize failure is caught by the outer
catch and posts an error message after the progress messages, leaving the
unfinalized zip file on storage; on success the stream close handler posts
the complete message.  A deferred stream-read failure (unreadable
non-eligible source, see `hasDeferredReadFailure`) fires with no error
listener attached, so the worker dies with no terminal message and a
nonzero exit; the model places that death after the loop, while in the
source it can also interrupt the loop at an await point — the messages the
parent actually receives are then a prefix of the modeled `msgs`, and the
theorems below about crashed runs use only prefix-stable facts (which
messages never occur). -/
def runWorker (w : WorkerInput) : WorkerResult :=
  let zipName := zipNameOf w.zipFolderName w.batchId
  let zipPath := pathJoin w.tempCompressedDir zipName
  if w.openFails then
    { msgs := [Msg.error "open failure"], entries := [], unlinked := [], zipCreated := none,
      crashed := false }
  else
    let (es, ms, us) := runLoop w.uploadDir w.files 0
    if hasDeferredReadFailure w.files then
      { msgs := ms, entries := es, unlinked := us, zipCreated := some zipPath,
        crashed := true }
    else if w.finalizeFails then
      { msgs := ms ++ [Msg.error "finalize failure"], entries := es, unlinked := us,
        zipCreated := some zipPath, crashed := false }
    else
      { msgs := ms ++ [Msg.complete zipPath zipName], entries := es, unlinked := us,
        zipCreated := some zipPath, crashed := false }

/-- The source paths a batch's worker touches (reads and unlinks):
`path.join(uploadDir, file.originalname)` for each file. -/
def sourcePaths (w : WorkerInput) : List String :=
  w.files.map (fun f => pathJoin w.uploadDir f.originalname)

/-- A batch status as stored in `compressionProgress[batchId].status`.
(`index.js` only ever writes the strings Processing, Complete, Error,
Failed.) -/
inductive Status where
  | Processing
  | Complete
  | Error
  | Failed
deriving DecidableEq, Repr

/-- One registry record `compressionProgress[batchId]` (`index.js` lines
108-113): total and completed counts, status, the original names of the
batch's uploaded files, and the zip name once the complete message has
delivered it. -/
structure BatchEntry where
  total : Nat
  completed : Nat
  status : Status
  files : List String
  zipName : Option String
deriving DecidableEq, Repr

/-- `compressionProgress[b]` lookup on the association-list registry. -/
def getEntry : List (String × BatchEntry) → String → Option BatchEntry
  | [], _ => none
  | (k, v) :: rest, b => if k = b then some v else getEntry rest b

/-- Update the record at key `b` in place (JS field assignment on
`compressionProgress[b]`); no-op when the key is absent. -/
def mapEntry : List (String × BatchEntry) → String → (BatchEntry → BatchEntry) →
    List (String × BatchEntry)
  | [], _, _ => []
  | (k, v) :: rest, b, f => if k = b then (k, f v) :: rest else (k, v) :: mapEntry rest b f

/-- `delete compressionProgress[b]`. -/
def removeEntry : List (String × BatchEntry) → String → List (String × BatchEntry)
  | [], _ => []
  | (k, v) :: rest, b => if k = b then removeEntry rest b else (k, v) :: removeEntry rest b

/-- `compressionProgress[b] = v` (assignment of a fresh record). -/
def putEntry (reg : List (String × BatchEntry)) (b : String) (v : BatchEntry) :
    List (String × BatchEntry) :=
  (b, v) :: removeEntry reg b

/-- Remove every occurrence of an id from the live-worker list
(`batchWorkers.delete(b)`). -/
def removeAll : List String → String → List String
  | [], _ => []
  | x :: rest, b => if x = b then removeAll rest b else x :: removeAll rest b

/-- `fs.unlinkSync p` on the storage model. -/
def removePath : List String → String → List String
  | [], _ => []
  | x :: rest, p => if x = p then removePath rest p else x :: removePath rest p

/-- A file coming into existence on storage. -/
def addPath (disk : List String) (p : String) : List String :=
  if p ∈ disk then disk else p :: disk

/-- `cleanupBatchUploadedFiles` body (`index.js` lines 182-192): unlink
`path.join(uploadDir, filename)` for each recorded original name (the
`existsSync` guard makes the unlink a silent no-op for missing files, which
`removePath` already is). -/
def cleanupUploadedFiles (uploadDir : String) (names : List String)
    (disk : List String) : List String :=
  names.foldl (fun d n => removePath d (pathJoin uploadDir n)) disk

/-- The server's mutable state: the `compressionProgress` registry, the
`batchWorkers` key set, and the set of paths currently existing on storage
(uploads and temp_compressed areas together, as full paths). -/
structure ServerState where
  registry : List (String × BatchEntry)
  workers : List String
  disk : List String
deriving DecidableEq, Repr

/-- The two storage directories of `index.js` (path.join(__dirname, ...)). -/
def uploadDirS : String := "uploads"

/-- The output storage directory. -/
def tempCompressedDirS : String := "temp_compressed"

/-- Response of `POST /compress`. -/
inductive SubmitResp where
  | badRequest
  | accepted (batchId : String)
deriving DecidableEq, Repr

/-- `app.post('/compress')` (`index.js` lines 98-175), state part: with no
files a 400 is returned and nothing is created; otherwise a registry record
with `total = files.length`, `completed = 0`, status Processing and the
original names is stored under the fresh batch id, and the id is added to
`batchWorkers`.  The generated id (`Date.now()` plus a random suffix) is a
parameter here. -/
def submitHandler (batchId : String) (fileNames : List String) (st : ServerState) :
    SubmitResp × ServerState :=
  if fileNames = [] then (SubmitResp.badRequest, st)
  else
    let entry : BatchEntry :=
      { total := fileNames.length, completed := 0, status := Status.Processing,
        files := fileNames, zipName := none }
    (SubmitResp.accepted batchId,
      { st with registry := putEntry st.registry batchId entry,
                workers := batchId :: st.workers })

/-- A signal delivered to the parent's worker-event handlers: a posted
message, the Worker `error` event, or the Worker `exit` event with its
code. -/
inductive Signal where
  | message (m : Msg)
  | workerErrored
  | exited (code : Nat)
deriving DecidableEq, Repr

/-- The three `worker.on(...)` handlers of `index.js` lines 136-172, as one
state transformer for a signal delivered for batch `b`:
* `progress` overwrites `completed` (and nothing else);
* `complete` sets status Complete and records the zip name, and drops the
  worker from `batchWorkers`;
* a posted `error` message and the Worker `error` event set status Error,
  unlink the batch's remaining uploaded files and drop the worker;
* `exit` with a nonzero code, when the registry entry still exists and its
  status is not Error, sets status Failed and unlinks the batch's uploaded
  files; the worker is dropped in every exit case. -/
def applySignal (b : String) (sig : Signal) (st : ServerState) : ServerState :=
  match sig with
  | Signal.message (Msg.progress n) =>
      { st with registry := mapEntry st.registry b (fun e => { e with completed := n }) }
  | Signal.message (Msg.complete _ zn) =>
      { st with
        registry := mapEntry st.registry b
          (fun e => { e with status := Status.Complete, zipName := some zn }),
        workers := removeAll st.workers b }
  | Signal.message (Msg.error _) =>
      { registry := mapEntry st.registry b (fun e => { e with status := Status.Error }),
        workers := removeAll st.workers b,
        disk := match getEntry st.registry b with
                | some e => cleanupUploadedFiles uploadDirS e.files st.disk
                | none => st.disk }
  | Signal.workerErrored =>
      { registry := mapEntry st.registry b (fun e => { e with status := Status.Error }),
        workers := removeAll st.workers b,
        disk := match getEntry st.registry b with
                | some e => cleanupUploadedFiles uploadDirS e.files st.disk
                | none => st.disk }
  | Signal.exited c =>
      match getEntry st.registry b with
      | some e =>
          if c ≠ 0 ∧ e.status ≠ Status.Error then
            { registry := mapEntry st.registry b (fun e => { e with status := Status.Failed }),
              workers := removeAll st.workers b,
              disk := cleanupUploadedFiles uploadDirS e.files st.disk }
          else { st with workers := removeAll st.workers b }
      | none => { st with workers := removeAll st.workers b }

/-- `Math.round((completed / total) * 100)` computed exactly: round half up
of the rational `100 * completed / total`.  The divisor is the entry's
`total`. -/
def roundPercent (completed total : Nat) : Nat :=
  (200 * completed + total) / (2 * total)

/-- Body of `GET /progress/:batchId` (`index.js` lines 195-211). -/
structure ProgressResp where
  progress : Nat
  status : Status
  totalFiles : Nat
  completedFiles : Nat
deriving DecidableEq, Repr

/-- `app.get('/progress/:batchId')`: 404 (`none`) when the id is unknown,
otherwise the rounded percentage, status and counts from the registry
record. -/
def progressHandler (batchId : String) (st : ServerState) : Option ProgressResp :=
  match getEntry st.registry batchId with
  | none => none
  | some e => some ⟨roundPercent e.completed e.total, e.status, e.total, e.completed⟩

/-- Response of `GET /download/:batchId`. -/
inductive DownloadResp where
  | notFound
  | streamed (zipPath zipName : String)
deriving DecidableEq, Repr

/-- `app.get('/download/:batchId')` (`index.js` lines 213-241): 404 when the
id is unknown, the status is not Complete, no zip name is recorded, or the
zip path does not exist on storage; otherwise the file is streamed and the
download callback then deletes the registry entry and unlinks the zip.
(The code's callback deletes even after a failed transfer; the successful
transfer modelled here is the case the claims speak about.) -/
def downloadHandler (batchId : String) (st : ServerState) : DownloadResp × ServerState :=
  match getEntry st.registry batchId with
  | none => (DownloadResp.notFound, st)
  | some e =>
    if e.status = Status.Complete then
      match e.zipName with
      | none => (DownloadResp.notFound, st)
      | some zn =>
        let zipPath := pathJoin tempCompressedDirS zn
        if zipPath ∈ st.disk then
          (DownloadResp.streamed zipPath zn,
            { st with registry := removeEntry st.registry batchId,
                      disk := removePath st.disk zipPath })
        else (DownloadResp.notFound, st)
    else (DownloadResp.notFound, st)

/-- Response of `POST /cleanup/:batchId`. -/
inductive CleanupResp where
  | notFound
  | success
deriving DecidableEq, Repr

/-- `app.post('/cleanup/:batchId')` (`index.js` lines 244-278): 404 when the
id is unknown; otherwise terminate/drop the worker, unlink the batch's
uploaded files, unlink the zip only when `progressData.zipName` is set,
delete the registry entry and answer success. -/
def cleanupHandler (batchId : String) (st : ServerState) : CleanupResp × ServerState :=
  match getEntry st.registry batchId with
  | none => (CleanupResp.notFound, st)
  | some e =>
    let disk1 := cleanupUploadedFiles uploadDirS e.files st.disk
    let disk2 := match e.zipName with
                 | some zn => removePath disk1 (pathJoin tempCompressedDirS zn)
                 | none => disk1
    (CleanupResp.success,
      { registry := removeEntry st.registry batchId,
        workers := removeAll st.workers batchId,
        disk := disk2 })

/-- One externally triggered state change of the server: a submission, a
worker signal for a batch, a download, a cleanup call, or a file appearing
on storage (an upload landing, or the worker opening its zip stream). -/
inductive Event where
  | submit (batchId : String) (fileNames : List String)
  | signal (batchId : String) (sig : Signal)
  | download (batchId : String)
  | cleanup (batchId : String)
  | diskWrite (p : String)
deriving Repr

/-- Apply one event to the server state. -/
def stepEvent (st : ServerState) : Event → ServerState
  | Event.submit b ns => (submitHandler b ns st).2
  | Event.signal b s => applySignal b s st
  | Event.download b => (downloadHandler b st).2
  | Event.cleanup b => (cleanupHandler b st).2
  | Event.diskWrite p => { st with disk := addPath st.disk p }

/-- Run a list of events from a state. -/
def runEvents (st : ServerState) (evs : List Event) : ServerState :=
  evs.foldl stepEvent st

/-- The server starts with an empty registry, no workers and (after the
startup sweep) empty storage areas. -/
def initState : ServerState := ⟨[], [], []⟩

/-- Deliver a list of worker messages for batch `b` in order. -/
def deliverMsgs (b : String) (msgs : List Msg) (st : ServerState) : ServerState :=
  msgs.foldl (fun s m => applySignal b (Signal.message m) s) st

/-! ### Registry and storage lemmas -/

theorem getEntry_mapEntry_self (reg : List (String × BatchEntry)) (b : String)
    (f : BatchEntry → BatchEntry) :
    getEntry (mapEntry reg b f) b = (getEntry reg b).map f := by
  induction reg with
  | nil => rfl
  | cons kv rest ih =>
    obtain ⟨k, v⟩ := kv
    by_cases h : k = b <;> simp [mapEntry, getEntry, h, ih]

theorem getEntry_mapEntry_ne (reg : List (String × BatchEntry)) (b b' : String)
    (f : BatchEntry → BatchEntry) (hne : b' ≠ b) :
    getEntry (mapEntry reg b f) b' = getEntry reg b' := by
  induction reg with
  | nil => rfl
  | cons kv rest ih =>
    obtain ⟨k, v⟩ := kv
    by_cases h : k = b
    · subst h
      simp only [mapEntry, if_pos rfl, getEntry, if_neg (Ne.symm hne)]
    · simp [mapEntry, getEntry, h, ih]

theorem getEntry_removeEntry_self (reg : List (String × BatchEntry)) (b : String) :
    getEntry (removeEntry reg b) b = none := by
  induction reg with
  | nil => rfl
  | cons kv rest ih =>
    obtain ⟨k, v⟩ := kv
    by_cases h : k = b <;> simp [removeEntry, getEntry, h, ih]

theorem getEntry_removeEntry_ne (reg : List (String × BatchEntry)) (b b' : String)
    (hne : b' ≠ b) :
    getEntry (removeEntry reg b) b' = getEntry reg b' := by
  induction reg with
  | nil => rfl
  | cons kv rest ih =>
    obtain ⟨k, v⟩ := kv
    by_cases h : k = b
    · subst h
      simp [removeEntry, getEntry, Ne.symm hne, ih]
    · simp [removeEntry, getEntry, h, ih]

theorem getEntry_putEntry_self (reg : List (String × BatchEntry)) (b : String)
    (v : BatchEntry) :
    getEntry (putEntry reg b v) b = some v := by
  simp [putEntry, getEntry]

theorem mem_removePath (d : List String) (p q : String) :
    p ∈ removePath d q ↔ p ∈ d ∧ p ≠ q := by
  induction d with
  | nil => simp [removePath]
  | cons x rest ih =>
    by_cases h : x = q
    · subst h
      have hstep : removePath (x :: rest) x = removePath rest x := by
        simp [removePath]
      rw [hstep, ih]
      constructor
      · rintro ⟨hm, hne⟩
        exact ⟨List.mem_cons_of_mem _ hm, hne⟩
      · rintro ⟨hm, hne⟩
        rcases List.mem_cons.mp hm with rfl | hm
        · exact absurd rfl hne
        · exact ⟨hm, hne⟩
    · simp [removePath, h, ih]
      constructor
      · rintro (rfl | ⟨hm, hne⟩)
        · exact ⟨Or.inl rfl, h⟩
        · exact ⟨Or.inr hm, hne⟩
      · rintro ⟨rfl | hm, hne⟩
        · exact Or.inl rfl
        · exact Or.inr ⟨hm, hne⟩

theorem mem_cleanupUploadedFiles (u : String) (names : List String) (d : List String)
    (p : String) :
    p ∈ cleanupUploadedFiles u names d ↔ p ∈ d ∧ ∀ n ∈ names, p ≠ pathJoin u n := by
  induction names generalizing d with
  | nil => simp [cleanupUploadedFiles]
  | cons n rest ih =>
    have hstep : cleanupUploadedFiles u (n :: rest) d =
        cleanupUploadedFiles u rest (removePath d (pathJoin u n)) := rfl
    rw [hstep, ih, mem_removePath, List.forall_mem_cons, and_assoc]

/-! ### Worker-loop lemmas -/

/-- The progress messages posted by `completedCount` iterations starting at
count `c`: `progress (c+1), progress (c+2), ...`. -/
def progMsgs (c : Nat) : Nat → List Msg
  | 0 => []
  | n + 1 => Msg.progress (c + 1) :: progMsgs (c + 1) n

theorem progMsgs_length (c n : Nat) : (progMsgs c n).length = n := by
  induction n generalizing c with
  | zero => rfl
  | succ n ih => simp [progMsgs, ih]

theorem progMsgs_take (c : Nat) : ∀ n k, (progMsgs c n).take k = progMsgs c (min k n) := by
  intro n
  induction n generalizing c with
  | zero => intro k; simp [progMsgs]
  | succ n ih =>
    intro k
    cases k with
    | zero => simp [progMsgs]
    | succ k =>
      simp only [progMsgs, List.take_succ_cons, ih (c + 1) k, Nat.succ_min_succ]

theorem mem_progMsgs (c n : Nat) (m : Msg) (hm : m ∈ progMsgs c n) :
    ∃ k, m = Msg.progress k := by
  induction n generalizing c with
  | zero => simp [progMsgs] at hm
  | succ n ih =>
    simp only [progMsgs, List.mem_cons] at hm
    rcases hm with rfl | hm
    · exact ⟨c + 1, rfl⟩
    · exact ih (c + 1) hm

theorem runLoop_eq (u : String) (files : List UpFile) : ∀ c : Nat,
    runLoop u files c =
      (files.filterMap fileEntry, progMsgs c files.length,
        files.map (fun f => pathJoin u f.originalname)) := by
  induction files with
  | nil => intro c; rfl
  | cons f rest ih =>
    intro c
    simp only [runLoop, ih (c + 1), List.length_cons, List.map_cons, progMsgs]
    refine Prod.ext ?_ rfl
    simp only [List.filterMap_cons]
    cases h : fileEntry f <;> simp [h, Option.toList]

theorem runWorker_msgs (w : WorkerInput) (h : w.openFails = false)
    (hd : hasDeferredReadFailure w.files = false) :
    (runWorker w).msgs = progMsgs 0 w.files.length ++
      [if w.finalizeFails then Msg.error "finalize failure"
       else Msg.complete (pathJoin w.tempCompressedDir (zipNameOf w.zipFolderName w.batchId))
              (zipNameOf w.zipFolderName w.batchId)] := by
  by_cases hf : w.finalizeFails <;> simp [runWorker, h, hd, hf, runLoop_eq]

theorem runWorker_msgs_crashed (w : WorkerInput) (h : w.openFails = false)
    (hd : hasDeferredReadFailure w.files = true) :
    (runWorker w).msgs = progMsgs 0 w.files.length ∧ (runWorker w).crashed = true := by
  constructor <;> simp [runWorker, h, hd, runLoop_eq]

theorem runWorker_msgs_open_fails (w : WorkerInput) (h : w.openFails = true) :
    (runWorker w).msgs = [Msg.error "open failure"] := by
  simp [runWorker, h]

theorem runWorker_entries (w : WorkerInput) (h : w.openFails = false) :
    (runWorker w).entries = w.files.filterMap fileEntry := by
  by_cases hd : hasDeferredReadFailure w.files <;>
    by_cases hf : w.finalizeFails <;> simp [runWorker, h, hd, hf, runLoop_eq]

theorem runWorker_unlinked (w : WorkerInput) (h : w.openFails = false) :
    (runWorker w).unlinked = sourcePaths w := by
  by_cases hd : hasDeferredReadFailure w.files <;>
    by_cases hf : w.finalizeFails <;> simp [runWorker, h, hd, hf, runLoop_eq, sourcePaths]

theorem runWorker_zipCreated (w : WorkerInput) (h : w.openFails = false) :
    (runWorker w).zipCreated =
      some (pathJoin w.tempCompressedDir (zipNameOf w.zipFolderName w.batchId)) := by
  by_cases hd : hasDeferredReadFailure w.files <;>
    by_cases hf : w.finalizeFails <;> simp [runWorker, h, hd, hf]

/-! ### Last-progress-value bookkeeping -/

/-- The value of `completed` after folding a message list over an initial
value: the payload of the last progress message, or the initial value if
there is none. -/
def lastProgAcc (L : List Msg) (c : Nat) : Nat :=
  L.foldl (fun acc m => match m with | Msg.progress n => n | _ => acc) c

theorem lastProgAcc_append (L1 L2 : List Msg) (c : Nat) :
    lastProgAcc (L1 ++ L2) c = lastProgAcc L2 (lastProgAcc L1 c) := by
  simp [lastProgAcc, List.foldl_append]

theorem lastProgAcc_progMsgs (n : Nat) : ∀ c a : Nat,
    lastProgAcc (progMsgs c n) a = if n = 0 then a else c + n := by
  induction n with
  | zero => intro c a; rfl
  | succ n ih =>
    intro c a
    have hstep : lastProgAcc (progMsgs c (n + 1)) a = lastProgAcc (progMsgs (c + 1) n) (c + 1) := rfl
    rw [hstep, ih (c + 1) (c + 1)]
    by_cases h : n = 0
    · simp [h]
    · simp [h]
      omega

theorem lastProgAcc_take_progMsgs_only (n k : Nat) :
    lastProgAcc ((progMsgs 0 n).take k) 0 = min k n := by
  rw [progMsgs_take, lastProgAcc_progMsgs]
  by_cases h : min k n = 0 <;> simp [h]

theorem lastProgAcc_take_progMsgs (n k : Nat) (t : Msg)
    (ht : ∀ m, t ≠ Msg.progress m) :
    lastProgAcc ((progMsgs 0 n ++ [t]).take k) 0 = min k n := by
  by_cases hk : k ≤ n
  · rw [List.take_append_of_le_length (by simpa [progMsgs_length] using hk)]
    exact lastProgAcc_take_progMsgs_only n k
  · have hsplit : k = (progMsgs 0 n).length + (k - n) := by
      simp [progMsgs_length]; omega
    have h2 : (progMsgs 0 n ++ [t]).take k = progMsgs 0 n ++ [t].take (k - n) := by
      conv_lhs => rw [hsplit]
      exact List.take_append _
    rw [h2, lastProgAcc_append, lastProgAcc_progMsgs]
    have hval : (if n = 0 then 0 else 0 + n) = n := by
      by_cases h : n = 0 <;> simp [h]
    rw [hval]
    have htake : ([t].take (k - n)) = [] ∨ ([t].take (k - n)) = [t] := by
      cases hkn : k - n with
      | zero => exact Or.inl rfl
      | succ m => exact Or.inr (by simp)
    have hmin : min k n = n := by omega
    rcases htake with h | h <;> rw [h, hmin]
    · rfl
    · cases t with
      | progress m => exact absurd rfl (ht m)
      | complete zp zn => rfl
      | error s => rfl

/-! ### Delivering worker messages into the registry -/

theorem deliverMsgs_cons (b : String) (m : Msg) (L : List Msg) (st : ServerState) :
    deliverMsgs b (m :: L) st = deliverMsgs b L (applySignal b (Signal.message m) st) := rfl

/-- Delivering a list of worker messages keeps the batch's registry entry in
place; the resulting `completed` is the payload of the last progress message
(or the old value when there is none), and `total` and `files` are
untouched. -/
theorem deliver_completed_total (b : String) :
    ∀ (L : List Msg) (st : ServerState) (e : BatchEntry),
      getEntry st.registry b = some e →
      ∃ e2, getEntry (deliverMsgs b L st).registry b = some e2 ∧
        e2.completed = lastProgAcc L e.completed ∧ e2.total = e.total ∧
        e2.files = e.files := by
  intro L
  induction L with
  | nil => intro st e he; exact ⟨e, he, rfl, rfl, rfl⟩
  | cons m rest ih =>
    intro st e he
    rw [deliverMsgs_cons]
    cases m with
    | progress n =>
      have h1 : getEntry (applySignal b (Signal.message (Msg.progress n)) st).registry b =
          some { e with completed := n } := by
        simp [applySignal, getEntry_mapEntry_self, he]
      obtain ⟨e2, h2, hc, htot, hfiles⟩ := ih _ _ h1
      exact ⟨e2, h2, hc, htot, hfiles⟩
    | complete zp zn =>
      have h1 : getEntry (applySignal b (Signal.message (Msg.complete zp zn)) st).registry b =
          some { e with status := Status.Complete, zipName := some zn } := by
        simp [applySignal, getEntry_mapEntry_self, he]
      obtain ⟨e2, h2, hc, htot, hfiles⟩ := ih _ _ h1
      exact ⟨e2, h2, hc, htot, hfiles⟩
    | error s =>
      have h1 : getEntry (applySignal b (Signal.message (Msg.error s)) st).registry b =
          some { e with status := Status.Error } := by
        simp [applySignal, getEntry_mapEntry_self, he]
      obtain ⟨e2, h2, hc, htot, hfiles⟩ := ih _ _ h1
      exact ⟨e2, h2, hc, htot, hfiles⟩

/-- The `completed` count of a batch as held in the registry after the batch
was submitted (with its files' original names) and the first `k` messages of
its worker's run have been delivered. -/
def completedAt (w : WorkerInput) (st : ServerState) (k : Nat) : Nat :=
  ((getEntry (deliverMsgs w.batchId ((runWorker w).msgs.take k)
      ((submitHandler w.batchId (w.files.map UpFile.originalname) st).2)).registry
    w.batchId).map BatchEntry.completed).getD 0

/-- The `total` count of the same registry entry at the same instant. -/
def totalAt (w : WorkerInput) (st : ServerState) (k : Nat) : Option Nat :=
  (getEntry (deliverMsgs w.batchId ((runWorker w).msgs.take k)
      ((submitHandler w.batchId (w.files.map UpFile.originalname) st).2)).registry
    w.batchId).map BatchEntry.total

theorem lastProgAcc_take_single_error (s : String) (k : Nat) :
    lastProgAcc ([Msg.error s].take k) 0 = 0 := by
  cases k with
  | zero => rfl
  | succ k => simp [lastProgAcc]

theorem completedAt_totalAt_closed (w : WorkerInput) (st : ServerState)
    (hne : w.files ≠ []) (k : Nat) :
    completedAt w st k = (if w.openFails then 0 else min k w.files.length) ∧
    totalAt w st k = some w.files.length := by
  have hmapne : w.files.map UpFile.originalname ≠ [] := by
    simpa [List.map_eq_nil_iff] using hne
  have hget : getEntry ((submitHandler w.batchId (w.files.map UpFile.originalname) st).2).registry
      w.batchId = some
      { total := (w.files.map UpFile.originalname).length, completed := 0,
        status := Status.Processing, files := w.files.map UpFile.originalname,
        zipName := none } := by
    simp [submitHandler, hmapne, getEntry_putEntry_self]
  obtain ⟨e2, h2, hc, htot, -⟩ :=
    deliver_completed_total w.batchId ((runWorker w).msgs.take k) _ _ hget
  have hlast : lastProgAcc ((runWorker w).msgs.take k) 0 =
      if w.openFails then 0 else min k w.files.length := by
    by_cases ho : w.openFails
    · rw [runWorker_msgs_open_fails w ho, if_pos ho]
      exact lastProgAcc_take_single_error _ _
    · by_cases hdf : hasDeferredReadFailure w.files
      · rw [(runWorker_msgs_crashed w (by simpa using ho) hdf).1, if_neg ho]
        exact lastProgAcc_take_progMsgs_only _ _
      · rw [runWorker_msgs w (by simpa using ho) (by simpa using hdf), if_neg ho]
        apply lastProgAcc_take_progMsgs
        intro m
        by_cases hf : w.finalizeFails <;> simp [hf]
  constructor
  · rw [completedAt, h2]
    simp only [Option.map_some', Option.getD_some]
    rw [hc]
    simpa using hlast
  · rw [totalAt, h2]
    simp only [Option.map_some']
    rw [htot]
    simp [List.length_map]

/-! ### The registry invariant: every entry has a nonzero total -/

/-- Every entry present in the registry has `total ≥ 1`. -/
def totalsPos (reg : List (String × BatchEntry)) : Prop :=
  ∀ b e, getEntry reg b = some e → 1 ≤ e.total

theorem totalsPos_mapEntry (reg : List (String × BatchEntry)) (b : String)
    (f : BatchEntry → BatchEntry) (hf : ∀ e, (f e).total = e.total)
    (h : totalsPos reg) : totalsPos (mapEntry reg b f) := by
  intro b' e' he'
  by_cases hb : b' = b
  · subst hb
    rw [getEntry_mapEntry_self] at he'
    cases hx : getEntry reg b' with
    | none => rw [hx] at he'; cases he'
    | some e =>
      rw [hx] at he'
      simp only [Option.map_some'] at he'
      cases he'
      rw [hf]
      exact h b' e hx
  · rw [getEntry_mapEntry_ne _ _ _ _ hb] at he'
    exact h b' e' he'

theorem totalsPos_removeEntry (reg : List (String × BatchEntry)) (b : String)
    (h : totalsPos reg) : totalsPos (removeEntry reg b) := by
  intro b' e' he'
  by_cases hb : b' = b
  · subst hb
    rw [getEntry_removeEntry_self] at he'
    cases he'
  · rw [getEntry_removeEntry_ne _ _ _ hb] at he'
    exact h b' e' he'

theorem totalsPos_putEntry (reg : List (String × BatchEntry)) (b : String)
    (v : BatchEntry) (hv : 1 ≤ v.total) (h : totalsPos reg) :
    totalsPos (putEntry reg b v) := by
  intro b' e' he'
  simp only [putEntry, getEntry] at he'
  by_cases hb : b = b'
  · rw [if_pos hb] at he'
    cases he'
    exact hv
  · rw [if_neg hb] at he'
    exact totalsPos_removeEntry reg b h b' e' he'

theorem applySignal_totalsPos (b : String) (sig : Signal) (st : ServerState)
    (h : totalsPos st.registry) : totalsPos (applySignal b sig st).registry := by
  cases sig with
  | message m =>
    cases m with
    | progress n => exact totalsPos_mapEntry _ _ _ (fun e => rfl) h
    | complete zp zn => exact totalsPos_mapEntry _ _ _ (fun e => rfl) h
    | error s => exact totalsPos_mapEntry _ _ _ (fun e => rfl) h
  | workerErrored => exact totalsPos_mapEntry _ _ _ (fun e => rfl) h
  | exited c =>
    simp only [applySignal]
    split
    · split
      · exact totalsPos_mapEntry _ _ _ (fun e => rfl) h
      · exact h
    · exact h

theorem downloadHandler_registry (b : String) (st : ServerState) :
    (downloadHandler b st).2.registry = st.registry ∨
    (downloadHandler b st).2.registry = removeEntry st.registry b := by
  unfold downloadHandler
  split
  · exact Or.inl rfl
  · split
    · split
      · exact Or.inl rfl
      · dsimp only
        split
        · exact Or.inr rfl
        · exact Or.inl rfl
    · exact Or.inl rfl

theorem cleanupHandler_registry (b : String) (st : ServerState) :
    (cleanupHandler b st).2.registry = st.registry ∨
    (cleanupHandler b st).2.registry = removeEntry st.registry b := by
  unfold cleanupHandler
  split
  · exact Or.inl rfl
  · exact Or.inr rfl

theorem totalsPos_step (st : ServerState) (ev : Event) (h : totalsPos st.registry) :
    totalsPos (stepEvent st ev).registry := by
  cases ev with
  | submit b ns =>
    by_cases hns : ns = []
    · simpa [stepEvent, submitHandler, hns] using h
    · simp only [stepEvent, submitHandler, if_neg hns]
      exact totalsPos_putEntry _ _ _ (by simpa using List.length_pos.mpr hns) h
  | signal b sig => exact applySignal_totalsPos b sig st h
  | download b =>
    rcases downloadHandler_registry b st with hr | hr
    · intro b' e' he'; rw [show (stepEvent st (Event.download b)).registry =
        (downloadHandler b st).2.registry from rfl, hr] at he'; exact h b' e' he'
    · intro b' e' he'; rw [show (stepEvent st (Event.download b)).registry =
        (downloadHandler b st).2.registry from rfl, hr] at he'
      exact totalsPos_removeEntry _ _ h b' e' he'
  | cleanup b =>
    rcases cleanupHandler_registry b st with hr | hr
    · intro b' e' he'; rw [show (stepEvent st (Event.cleanup b)).registry =
        (cleanupHandler b st).2.registry from rfl, hr] at he'; exact h b' e' he'
    · intro b' e' he'; rw [show (stepEvent st (Event.cleanup b)).registry =
        (cleanupHandler b st).2.registry from rfl, hr] at he'
      exact totalsPos_removeEntry _ _ h b' e' he'
  | diskWrite p => exact h

theorem totalsPos_runEvents (evs : List Event) :
    ∀ st : ServerState, totalsPos st.registry → totalsPos (runEvents st evs).registry := by
  induction evs with
  | nil => intro st h; exact h
  | cons ev rest ih =>
    intro st h
    exact ih (stepEvent st ev) (totalsPos_step st ev h)

/-! ### Claim theorems -/

/-- The zip path a worker run creates on storage. -/
def zipPathOf (w : WorkerInput) : String :=
  pathJoin w.tempCompressedDir (zipNameOf w.zipFolderName w.batchId)

/-- Worker input for a two-file batch, as the server launches it for
`POST /compress` with files `a.png`, `b.txt` and no zip folder name. -/
def wC1 : WorkerInput :=
  { files := [⟨"a.png", false, false⟩, ⟨"b.txt", false, false⟩], uploadDir := uploadDirS,
    tempCompressedDir := tempCompressedDirS, batchId := "b1", zipFolderName := none }

/-- The server state of that batch mid-processing: submitted, the worker has
opened its zip stream (so the partial archive exists on storage), and one
progress message has been delivered; the batch is still Processing and its
registry record has no `zipName`. -/
def stC1 : ServerState :=
  runEvents initState
    [Event.submit "b1" ["a.png", "b.txt"],
     Event.diskWrite (zipPathOf wC1),
     Event.signal "b1" (Signal.message (Msg.progress 1))]

/-- C1: the cleanup endpoint on a Processing batch is claimed to delete any
partial or complete archive, leaving no archive file of the batch on
storage.  Evaluating the code on a mid-processing batch refutes this: the
worker has already created the batch's zip file at `zipPathOf wC1`, the
registry record of a Processing batch has no `zipName`, so the handler's
zip-deletion branch is skipped; cleanup answers `success` and removes the
registry entry, but the partial archive is still on storage afterwards. -/
theorem cleanup_processing_leaves_archive_C1 :
    (runWorker wC1).zipCreated = some (zipPathOf wC1) ∧
    (getEntry stC1.registry "b1").map BatchEntry.status = some Status.Processing ∧
    (getEntry stC1.registry "b1").map BatchEntry.zipName = some none ∧
    zipPathOf wC1 ∈ stC1.disk ∧
    (cleanupHandler "b1" stC1).1 = CleanupResp.success ∧
    getEntry ((cleanupHandler "b1" stC1).2).registry "b1" = none ∧
    zipPathOf wC1 ∈ ((cleanupHandler "b1" stC1).2).disk := by
  decide

/-- Worker input for a batch with a single eligible image whose sharp
transform fails. -/
def wC2 : WorkerInput :=
  { files := [⟨"photo.png", true, false⟩], uploadDir := uploadDirS,
    tempCompressedDir := tempCompressedDirS, batchId := "b1", zipFolderName := none }

/-- C2: the claim says a file whose lossy transform fails is included in the
archive as its original bytes under its original name.  Evaluating the
worker on an eligible file whose sharp call fails refutes this: the per-file
catch only logs, so the archive receives no entry at all for the file — it
is silently dropped — while the batch still counts it and completes
normally. -/
theorem sharp_failure_drops_file_C2 :
    shouldCompress "photo.png" = true ∧
    (runWorker wC2).entries = [] ∧
    (runWorker wC2).msgs = [Msg.progress 1,
      Msg.complete (zipPathOf wC2) "compressed_images_b1.zip"] := by
  decide

/-- A registry holding one batch already recorded Complete. -/
def stC3 : ServerState :=
  ⟨[("b1", ⟨1, 1, Status.Complete, ["a.png"], some "z.zip"⟩)], [], []⟩

/-- C3 counterexample: a nonzero worker exit delivered after a Complete
status has been recorded overwrites that terminal status with Failed (the
exit handler only guards against an already-recorded Error), so "once a
terminal status has been recorded, no later-delivered signal changes the
status" fails on the code. -/
theorem exit_after_complete_overwrites_C3_cex :
    (getEntry stC3.registry "b1").map BatchEntry.status = some Status.Complete ∧
    (getEntry (applySignal "b1" (Signal.exited 1) stC3).registry "b1").map BatchEntry.status =
      some Status.Failed := by
  decide

/-- C3 (amended): a stale progress signal never changes any batch's status
(it only overwrites the completed count), and a nonzero worker exit sets the
status to Failed exactly when the registry entry still exists and its status
is not Error — in particular an already-recorded Complete is not protected
from a nonzero exit. -/
theorem progress_sticky_exit_failed_C3 (st : ServerState) (b b' : String) (n c : Nat)
    (e : BatchEntry) :
    ((getEntry (applySignal b (Signal.message (Msg.progress n)) st).registry b').map
        BatchEntry.status = (getEntry st.registry b').map BatchEntry.status) ∧
    (getEntry st.registry b = some e →
      (getEntry (applySignal b (Signal.exited c) st).registry b).map BatchEntry.status =
        some (if c ≠ 0 ∧ e.status ≠ Status.Error then Status.Failed else e.status)) := by
  constructor
  · by_cases hb : b' = b
    · subst hb
      simp only [applySignal, getEntry_mapEntry_self]
      cases getEntry st.registry b' <;> rfl
    · simp only [applySignal]
      rw [getEntry_mapEntry_ne _ _ _ _ hb]
  · intro he
    simp only [applySignal, he]
    by_cases hc : c ≠ 0 ∧ e.status ≠ Status.Error
    · rw [if_pos hc, if_pos hc]
      simp [getEntry_mapEntry_self, he]
    · rw [if_neg hc, if_neg hc]
      simp [he]

/-- C3 witness: on the Complete batch of `stC3`, a stale progress signal
leaves the status untouched, and a nonzero exit resolves the code's guard to
Failed. -/
theorem progress_sticky_exit_failed_C3_witness :
    ((getEntry (applySignal "b1" (Signal.message (Msg.progress 5)) stC3).registry "b1").map
        BatchEntry.status = (getEntry stC3.registry "b1").map BatchEntry.status) ∧
    ((getEntry (applySignal "b1" (Signal.exited 1) stC3).registry "b1").map
        BatchEntry.status =
      some (if (1 : Nat) ≠ 0 ∧ Status.Complete ≠ Status.Error then Status.Failed
            else Status.Complete)) :=
  ⟨(progress_sticky_exit_failed_C3 stC3 "b1" "b1" 5 1
      ⟨1, 1, Status.Complete, ["a.png"], some "z.zip"⟩).1,
   (progress_sticky_exit_failed_C3 stC3 "b1" "b1" 5 1
      ⟨1, 1, Status.Complete, ["a.png"], some "z.zip"⟩).2 (by decide)⟩

/-- C8 counterexample: an empty `zipFolderName` string is supplied but is
falsy in JS, so the archive is named with the default
`compressed_images_<batchId>.zip`, not `<zipFolderName>.zip`. -/
theorem empty_zip_folder_name_C8_cex :
    zipNameOf (some "") "17" = "compressed_images_17.zip" ∧
    zipNameOf (some "") "17" ≠ "" ++ ".zip" := by
  decide

/-- C8 (amended): when `zipFolderName` is supplied and non-empty the archive
name is exactly the string, used verbatim with no sanitization, followed by
`.zip`; when it is absent or empty the name is
`compressed_images_<batchId>.zip`. -/
theorem zip_name_C8 (s batchId : String) :
    (s ≠ "" → zipNameOf (some s) batchId = s ++ ".zip") ∧
    zipNameOf (some "") batchId = "compressed_images_" ++ batchId ++ ".zip" ∧
    zipNameOf none batchId = "compressed_images_" ++ batchId ++ ".zip" := by
  refine ⟨fun hs => ?_, ?_, rfl⟩
  · simp [zipNameOf, hs]
  · simp [zipNameOf]

/-- C8 witness: `zipFolderName = "vacation"` yields exactly `vacation.zip`. -/
theorem zip_name_C8_witness : zipNameOf (some "vacation") "b7" = "vacation" ++ ".zip" :=
  (zip_name_C8 "vacation" "b7").1 (by decide)

/-- C4: a complete message is posted only by the close handler installed
after a successful finalize (so only on runs where neither the stream open
nor the finalize failed), it is the last message of the run, and no run that
posts an error message ever posts a complete message. -/
theorem complete_only_after_finalize_C4 (w : WorkerInput) (zp zn s : String) :
    (Msg.complete zp zn ∈ (runWorker w).msgs →
      w.openFails = false ∧ w.finalizeFails = false ∧
      (runWorker w).msgs.getLast? = some (Msg.complete zp zn)) ∧
    (Msg.error s ∈ (runWorker w).msgs →
      ∀ zp2 zn2 : String, Msg.complete zp2 zn2 ∉ (runWorker w).msgs) := by
  by_cases ho : w.openFails
  · rw [runWorker_msgs_open_fails w ho]
    constructor
    · intro hmem
      simp at hmem
    · intro _ zp2 zn2
      simp
  · have ho' : w.openFails = false := by simpa using ho
    by_cases hdf : hasDeferredReadFailure w.files
    · rw [(runWorker_msgs_crashed w ho' hdf).1]
      constructor
      · intro hmem
        obtain ⟨k, hk⟩ := mem_progMsgs _ _ _ hmem
        cases hk
      · intro herr
        exfalso
        obtain ⟨k, hk⟩ := mem_progMsgs _ _ _ herr
        cases hk
    · rw [runWorker_msgs w ho' (by simpa using hdf)]
      by_cases hf : w.finalizeFails
      · rw [if_pos hf]
        constructor
        · intro hmem
          rcases List.mem_append.mp hmem with hm | hm
          · obtain ⟨k, hk⟩ := mem_progMsgs _ _ _ hm
            cases hk
          · simp at hm
        · intro _ zp2 zn2 hmem
          rcases List.mem_append.mp hmem with hm | hm
          · obtain ⟨k, hk⟩ := mem_progMsgs _ _ _ hm
            cases hk
          · simp at hm
      · rw [if_neg hf]
        constructor
        · intro hmem
          rcases List.mem_append.mp hmem with hm | hm
          · obtain ⟨k, hk⟩ := mem_progMsgs _ _ _ hm
            cases hk
          · simp only [List.mem_singleton] at hm
            refine ⟨ho', by simpa using hf, ?_⟩
            rw [List.getLast?_concat, hm]
        · intro herr
          exfalso
          rcases List.mem_append.mp herr with hm | hm
          · obtain ⟨k, hk⟩ := mem_progMsgs _ _ _ hm
            cases hk
          · simp at hm

/-- A worker input whose output stream cannot be opened. -/
def wC4 : WorkerInput :=
  { files := [⟨"a.png", false, false⟩], uploadDir := uploadDirS,
    tempCompressedDir := tempCompressedDirS, batchId := "b1", zipFolderName := none,
    openFails := true }

/-- C4 witness: a run that posts an error (failed stream open) posts no
complete message. -/
theorem complete_only_after_finalize_C4_witness :
    Msg.complete "p" "n" ∉ (runWorker wC4).msgs :=
  (complete_only_after_finalize_C4 wC4 "x" "y" "open failure").2 (by decide) "p" "n"

/-- Worker input with one eligible-but-failing image and one passthrough
file, used as a concrete run for the progress claims. -/
def wC5 : WorkerInput :=
  { files := [⟨"a.png", true, false⟩, ⟨"b.txt", false, false⟩], uploadDir := uploadDirS,
    tempCompressedDir := tempCompressedDirS, batchId := "b1", zipFolderName := none }

/-- C5: over the delivery of a worker run's messages into the registry, the
batch's completed count starts at 0, is monotonically non-decreasing, never
exceeds the number of files, and the total stays fixed at the number of
files recorded at submission (the progress endpoint reports exactly these
registry fields). -/
theorem completed_monotone_bounded_C5 (w : WorkerInput) (st : ServerState)
    (hne : w.files ≠ []) (i j : Nat) (hij : i ≤ j) :
    completedAt w st 0 = 0 ∧
    completedAt w st i ≤ completedAt w st j ∧
    completedAt w st j ≤ w.files.length ∧
    totalAt w st j = some w.files.length := by
  obtain ⟨hci, -⟩ := completedAt_totalAt_closed w st hne i
  obtain ⟨hcj, htj⟩ := completedAt_totalAt_closed w st hne j
  obtain ⟨hc0, -⟩ := completedAt_totalAt_closed w st hne 0
  refine ⟨?_, ?_, ?_, htj⟩
  · rw [hc0]
    by_cases h : w.openFails <;> simp [h]
  · rw [hci, hcj]
    by_cases h : w.openFails <;> simp [h]
    omega
  · rw [hcj]
    by_cases h : w.openFails <;> simp [h]

/-- C5 witness: the concrete two-file run (one per-file failure included)
satisfies the monotonicity and bound at observation instants 1 and 2. -/
theorem completed_monotone_bounded_C5_witness :
    completedAt wC5 initState 0 = 0 ∧
    completedAt wC5 initState 1 ≤ completedAt wC5 initState 2 ∧
    completedAt wC5 initState 2 ≤ 2 ∧
    totalAt wC5 initState 2 = some 2 :=
  completed_monotone_bounded_C5 wC5 initState (by decide) 1 2 (by decide)

/-- A one-file batch whose single non-eligible file has an unreadable
stored source. -/
def wC6 : WorkerInput :=
  { files := [⟨"b.txt", false, true⟩], uploadDir := uploadDirS,
    tempCompressedDir := tempCompressedDirS, batchId := "b1", zipFolderName := none }

/-- The server state right after submitting that batch. -/
def stC6 : ServerState := (submitHandler "b1" ["b.txt"] initState).2

/-- C6 counterexample: the claim quantifies over every input file, but an
unreadable source behind a non-eligible file is not caught by the per-file
catch: `createReadStream` is lazy, so its read error fires while the
archiver drains the stream, with no error listener attached, killing the
worker.  Concretely, for a one-file batch whose `b.txt` source is
unreadable, the file is appended (not skipped), the run posts its progress
message but never a complete message and dies, and the parent-side Worker
error event marks the batch Error — the batch is aborted, contrary to the
claim. -/
theorem unreadable_stream_aborts_C6_cex :
    shouldCompress "b.txt" = false ∧
    (runWorker wC6).entries = [⟨"b.txt", EntryData.originalStream⟩] ∧
    (runWorker wC6).msgs = [Msg.progress 1] ∧
    (runWorker wC6).crashed = true ∧
    (getEntry stC6.registry "b1").map BatchEntry.status = some Status.Processing ∧
    (getEntry (applySignal "b1" Signal.workerErrored stC6).registry "b1").map
      BatchEntry.status = some Status.Error := by
  decide

/-- C6 (amended): restricted to eligible files the claim holds — an eligible
file whose transform cannot read the source is caught, skipped (no archive
entry) and still counted, and on any run whose stream opened and that
carries no deferred stream-read failure the worker posts exactly one
progress message per input file, `progress 1, ..., progress n`, followed by
the single terminal message, so a run that reaches finalization has its
last progress count equal to the number of files and the entries are
exactly the per-file results.  For a non-eligible file with an unreadable
source, however, the deferred stream error escapes every catch: the run
crashes and never posts a complete message (the batch is aborted). -/
theorem per_file_error_counted_C6 (w : WorkerInput) (h : w.openFails = false) :
    (hasDeferredReadFailure w.files = false →
      (runWorker w).msgs = progMsgs 0 w.files.length ++
        [if w.finalizeFails then Msg.error "finalize failure"
         else Msg.complete (zipPathOf w) (zipNameOf w.zipFolderName w.batchId)] ∧
      lastProgAcc (runWorker w).msgs 0 = w.files.length ∧
      (runWorker w).entries = w.files.filterMap fileEntry) ∧
    (∀ f : UpFile, shouldCompress f.originalname = true → f.sharpFails = true →
      fileEntry f = none) ∧
    (hasDeferredReadFailure w.files = true →
      (runWorker w).crashed = true ∧
      ∀ zp zn : String, Msg.complete zp zn ∉ (runWorker w).msgs) := by
  refine ⟨fun hd => ⟨runWorker_msgs w h hd, ?_, runWorker_entries w h⟩, ?_, fun hd => ?_⟩
  · rw [runWorker_msgs w h hd, lastProgAcc_append, lastProgAcc_progMsgs]
    have hval : (if w.files.length = 0 then 0 else 0 + w.files.length) = w.files.length := by
      by_cases hn : w.files.length = 0 <;> simp [hn]
    rw [hval]
    by_cases hf : w.finalizeFails <;> simp [hf, lastProgAcc]
  · intro f hsc hsf
    simp [fileEntry, hsc, hsf]
  · obtain ⟨hm, hc⟩ := runWorker_msgs_crashed w h hd
    refine ⟨hc, fun zp zn hmem => ?_⟩
    rw [hm] at hmem
    obtain ⟨k, hk⟩ := mem_progMsgs _ _ _ hmem
    cases hk

/-- C6 witness: the two-file run with one eligible per-file failure (and no
deferred stream failure) still counts both files. -/
theorem per_file_error_counted_C6_witness :
    lastProgAcc (runWorker wC5).msgs 0 = 2 :=
  ((per_file_error_counted_C6 wC5 rfl).1 (by decide)).2.1

/-- C7: the download handler answers 404 exactly when the batch is unknown,
not Complete, has no recorded archive name, or the archive file is missing
from storage; and when it streams, the callback removes the registry entry
and unlinks the archive, so a second download immediately afterwards
answers 404. -/
theorem download_streams_iff_then_404_C7 (st : ServerState) (b : String) :
    ((downloadHandler b st).1 = DownloadResp.notFound ↔
      ¬ ∃ e, getEntry st.registry b = some e ∧ e.status = Status.Complete ∧
        ∃ zn, e.zipName = some zn ∧ pathJoin tempCompressedDirS zn ∈ st.disk) ∧
    (∀ p n, (downloadHandler b st).1 = DownloadResp.streamed p n →
      getEntry ((downloadHandler b st).2).registry b = none ∧
      p ∉ ((downloadHandler b st).2).disk ∧
      (downloadHandler b ((downloadHandler b st).2)).1 = DownloadResp.notFound) := by
  cases hx : getEntry st.registry b with
  | none =>
    have hresp : downloadHandler b st = (DownloadResp.notFound, st) := by
      simp [downloadHandler, hx]
    rw [hresp]
    constructor
    · apply iff_of_true rfl
      rintro ⟨e, he, -⟩
      cases he
    · intro p n hpn
      simp at hpn
  | some e =>
    by_cases hs : e.status = Status.Complete
    · cases hz : e.zipName with
      | none =>
        have hresp : downloadHandler b st = (DownloadResp.notFound, st) := by
          simp [downloadHandler, hx, hs, hz]
        rw [hresp]
        constructor
        · apply iff_of_true rfl
          rintro ⟨e2, he2, -, zn, hzn, -⟩
          cases he2
          rw [hz] at hzn
          cases hzn
        · intro p n hpn
          simp at hpn
      | some zn =>
        by_cases hd : pathJoin tempCompressedDirS zn ∈ st.disk
        · have hresp : downloadHandler b st =
              (DownloadResp.streamed (pathJoin tempCompressedDirS zn) zn,
               { st with registry := removeEntry st.registry b,
                         disk := removePath st.disk (pathJoin tempCompressedDirS zn) }) := by
            simp [downloadHandler, hx, hs, hz, hd]
          rw [hresp]
          constructor
          · apply iff_of_false
            · simp
            · intro hne
              exact hne ⟨e, rfl, hs, zn, hz, hd⟩
          · intro p n hpn
            have hpn2 : DownloadResp.streamed (pathJoin tempCompressedDirS zn) zn =
                DownloadResp.streamed p n := hpn
            injection hpn2 with h1 h2
            subst h1
            subst h2
            refine ⟨getEntry_removeEntry_self _ _, ?_, ?_⟩
            · rw [mem_removePath]
              rintro ⟨-, hne⟩
              exact hne rfl
            · simp [downloadHandler, getEntry_removeEntry_self]
        · have hresp : downloadHandler b st = (DownloadResp.notFound, st) := by
            simp [downloadHandler, hx, hs, hz, hd]
          rw [hresp]
          constructor
          · apply iff_of_true rfl
            rintro ⟨e2, he2, -, zn2, hzn2, hd2⟩
            cases he2
            rw [hz] at hzn2
            cases hzn2
            exact hd hd2
          · intro p n hpn
            simp at hpn
    · have hresp : downloadHandler b st = (DownloadResp.notFound, st) := by
        simp [downloadHandler, hx, hs]
      rw [hresp]
      constructor
      · apply iff_of_true rfl
        rintro ⟨e2, he2, hs2, -⟩
        cases he2
        exact hs hs2
      · intro p n hpn
        simp at hpn

/-- A registry holding one Complete batch whose archive exists on storage. -/
def stC7 : ServerState :=
  ⟨[("b1", ⟨1, 1, Status.Complete, ["a.png"], some "z.zip"⟩)], [],
    [pathJoin tempCompressedDirS "z.zip"]⟩

/-- C7 witness: a first successful download of the Complete batch removes
the entry and archive, and the immediate second download answers 404. -/
theorem download_streams_iff_then_404_C7_witness :
    getEntry ((downloadHandler "b1" stC7).2).registry "b1" = none ∧
    pathJoin tempCompressedDirS "z.zip" ∉ ((downloadHandler "b1" stC7).2).disk ∧
    (downloadHandler "b1" ((downloadHandler "b1" stC7).2)).1 = DownloadResp.notFound :=
  (download_streams_iff_then_404_C7 stC7 "b1").2 (pathJoin tempCompressedDirS "z.zip")
    "z.zip" (by decide)

/-- Joining a fixed directory with two names gives equal paths only for
equal names. -/
theorem pathJoin_inj_name (d a b : String) (h : pathJoin d a = pathJoin d b) : a = b := by
  have h2 : d.data ++ ("/".data ++ a.data) = d.data ++ ("/".data ++ b.data) := by
    have h1 := congrArg String.data h
    simpa [pathJoin, String.data_append, List.append_assoc] using h1
  exact String.ext (List.append_cancel_left (List.append_cancel_left h2))

/-- C9 (amended): two concurrent batches do not interfere provided their
uploaded original names are disjoint and their archive names differ: their
workers' source paths are then disjoint (so neither worker reads or unlinks
the other's files), their zip paths differ, a signal of one batch never
changes the other batch's registry entry, and cleanup of one batch deletes
no storage path outside that batch's recorded upload paths and archive. -/
theorem batch_isolation_C9 (w1 w2 : WorkerInput) (st : ServerState) (b2 : String)
    (sig : Signal)
    (hdisj : ∀ f1 ∈ w1.files, ∀ f2 ∈ w2.files, f1.originalname ≠ f2.originalname)
    (hu : w1.uploadDir = w2.uploadDir)
    (ht : w1.tempCompressedDir = w2.tempCompressedDir)
    (hz : zipNameOf w1.zipFolderName w1.batchId ≠ zipNameOf w2.zipFolderName w2.batchId)
    (hb : w1.batchId ≠ b2) :
    (∀ p ∈ sourcePaths w1, p ∉ sourcePaths w2) ∧
    (∀ p ∈ (runWorker w1).unlinked, p ∉ sourcePaths w2) ∧
    zipPathOf w1 ≠ zipPathOf w2 ∧
    getEntry (applySignal w1.batchId sig st).registry b2 = getEntry st.registry b2 ∧
    (∀ (e1 : BatchEntry) (p : String), getEntry st.registry w1.batchId = some e1 →
      p ∈ st.disk →
      (∀ m ∈ e1.files, p ≠ pathJoin uploadDirS m) →
      (∀ zn, e1.zipName = some zn → p ≠ pathJoin tempCompressedDirS zn) →
      p ∈ ((cleanupHandler w1.batchId st).2).disk) := by
  have hsrc : ∀ p ∈ sourcePaths w1, p ∉ sourcePaths w2 := by
    intro p hp1 hp2
    rw [sourcePaths, List.mem_map] at hp1 hp2
    obtain ⟨f1, hf1, rfl⟩ := hp1
    obtain ⟨f2, hf2, heq⟩ := hp2
    rw [← hu] at heq
    exact hdisj f1 hf1 f2 hf2 (pathJoin_inj_name _ _ _ heq).symm
  refine ⟨hsrc, ?_, ?_, ?_, ?_⟩
  · intro p hp
    by_cases ho : w1.openFails
    · rw [show (runWorker w1).unlinked = [] by simp [runWorker, ho]] at hp
      simp at hp
    · rw [runWorker_unlinked w1 (by simpa using ho)] at hp
      exact hsrc p hp
  · intro h
    rw [zipPathOf, zipPathOf, ht] at h
    exact hz (pathJoin_inj_name _ _ _ h)
  · cases sig with
    | message m =>
      cases m with
      | progress n =>
        simp only [applySignal]
        exact getEntry_mapEntry_ne _ _ _ _ (Ne.symm hb)
      | complete zp zn =>
        simp only [applySignal]
        exact getEntry_mapEntry_ne _ _ _ _ (Ne.symm hb)
      | error s =>
        simp only [applySignal]
        exact getEntry_mapEntry_ne _ _ _ _ (Ne.symm hb)
    | workerErrored =>
      simp only [applySignal]
      exact getEntry_mapEntry_ne _ _ _ _ (Ne.symm hb)
    | exited c =>
      simp only [applySignal]
      split
      · split
        · exact getEntry_mapEntry_ne _ _ _ _ (Ne.symm hb)
        · rfl
      · rfl
  · intro e1 p he1 hdisk hupl hzip
    cases hzn : e1.zipName with
    | none =>
      have hd : (cleanupHandler w1.batchId st).2.disk =
          cleanupUploadedFiles uploadDirS e1.files st.disk := by
        simp [cleanupHandler, he1, hzn]
      rw [hd]
      exact (mem_cleanupUploadedFiles _ _ _ _).mpr ⟨hdisk, hupl⟩
    | some zn =>
      have hd : (cleanupHandler w1.batchId st).2.disk =
          removePath (cleanupUploadedFiles uploadDirS e1.files st.disk)
            (pathJoin tempCompressedDirS zn) := by
        simp [cleanupHandler, he1, hzn]
      rw [hd, mem_removePath]
      exact ⟨(mem_cleanupUploadedFiles _ _ _ _).mpr ⟨hdisk, hupl⟩, hzip zn hzn⟩

/-- A one-image batch. -/
def w1C9 : WorkerInput :=
  { files := [⟨"a.png", false, false⟩], uploadDir := uploadDirS,
    tempCompressedDir := tempCompressedDirS, batchId := "1000_aaaa11111",
    zipFolderName := none }

/-- A second, concurrent one-image batch containing a file with the same
original name. -/
def w2C9 : WorkerInput :=
  { files := [⟨"a.png", false, false⟩], uploadDir := uploadDirS,
    tempCompressedDir := tempCompressedDirS, batchId := "1000_bbbb22222",
    zipFolderName := none }

/-- A third batch whose file name and archive name do not collide with
`w1C9`. -/
def w3C9 : WorkerInput :=
  { files := [⟨"c.png", false, false⟩], uploadDir := uploadDirS,
    tempCompressedDir := tempCompressedDirS, batchId := "1000_cccc33333",
    zipFolderName := none }

/-- C9 counterexample: uploads are stored in the shared upload directory
under the bare original name, so two distinct concurrent batches that each
contain a file named `a.png` share one storage path: the first batch's
worker unlinks exactly the path the second batch's worker reads — the
files are not exclusively owned by one batch. -/
theorem shared_name_breaks_isolation_C9_cex :
    w1C9.batchId ≠ w2C9.batchId ∧
    pathJoin uploadDirS "a.png" ∈ (runWorker w1C9).unlinked ∧
    pathJoin uploadDirS "a.png" ∈ sourcePaths w2C9 := by
  decide

/-- C9 witness: for two batches with disjoint names and distinct archive
names, a progress signal of the first leaves the second's registry lookup
unchanged. -/
theorem batch_isolation_C9_witness :
    getEntry (applySignal w1C9.batchId (Signal.message (Msg.progress 1))
      initState).registry "b2" = getEntry initState.registry "b2" :=
  (batch_isolation_C9 w1C9 w3C9 initState "b2" (Signal.message (Msg.progress 1))
    (by decide) rfl rfl (by decide) (by decide)).2.2.2.1

/-- C10: submitting with an empty file list is rejected with a 400 and
creates nothing; a successful submission records `total` equal to the
number of uploaded files; consequently every entry ever reachable in the
registry has `total ≥ 1`, so the progress endpoint's percentage computation
has a nonzero divisor for every existing entry. -/
theorem registry_total_positive_C10 :
    (∀ (b : String) (st : ServerState), submitHandler b [] st = (SubmitResp.badRequest, st)) ∧
    (∀ (b : String) (ns : List String) (st : ServerState), ns ≠ [] →
      getEntry ((submitHandler b ns st).2).registry b =
        some { total := ns.length, completed := 0, status := Status.Processing,
               files := ns, zipName := none }) ∧
    (∀ (evs : List Event) (b : String) (e : BatchEntry),
      getEntry (runEvents initState evs).registry b = some e → 1 ≤ e.total) ∧
    (∀ (evs : List Event) (b : String) (r : ProgressResp),
      progressHandler b (runEvents initState evs) = some r →
        1 ≤ r.totalFiles ∧ 2 * r.totalFiles ≠ 0) := by
  have h0 : totalsPos initState.registry := by
    intro b' e' he'
    cases he'
  refine ⟨?_, ?_, ?_, ?_⟩
  · intro b st
    simp [submitHandler]
  · intro b ns st hns
    simp [submitHandler, hns, getEntry_putEntry_self]
  · intro evs b e he
    exact totalsPos_runEvents evs initState h0 b e he
  · intro evs b r hr
    have hp := totalsPos_runEvents evs initState h0
    cases hx : getEntry (runEvents initState evs).registry b with
    | none =>
      simp [progressHandler, hx] at hr
    | some e =>
      simp only [progressHandler, hx] at hr
      injection hr with hr2
      subst hr2
      have hpos := hp b e hx
      refine ⟨?_, ?_⟩
      · show 1 ≤ e.total
        exact hpos
      · show 2 * e.total ≠ 0
        omega

/-- C10 witness: a two-file submission yields an entry with total 2, and the
progress divisor is nonzero. -/
theorem registry_total_positive_C10_witness : 1 ≤ 2 ∧ 2 * 2 ≠ 0 :=
  registry_total_positive_C10.2.2.2 [Event.submit "b1" ["a.png", "b.txt"]] "b1"
    ⟨0, Status.Processing, 2, 0⟩ (by decide)

example : shouldCompress "a.PNG" = true := by decide
example : shouldCompress "b.txt" = false := by decide
example : extname "a.b.c" = ".c" := by decide
example : extname ".bashrc" = "" := by decide
example : parseName "photo.png" = "photo" := by decide
example : zipNameOf (some "vacation") "17" = "vacation.zip" := by decide
example : zipNameOf none "17" = "compressed_images_17.zip" := by decide

end Bic
